import Mathlib

/-!
Verification of the LSP client subsystem of `goodiffer` (file `src/services/lsp.js`,
class `LSPService`): a shallow embedding of its transport codec, request
correlation table, process registry, handshake bookkeeping and result
formatting, together with theorems settling the specification's claims.

Strings arriving on the server's stdout pipe are modelled as `List Char`
(the JavaScript code operates on strings after `data.toString()`), and the
mutable fields of the `LSPService` instance are modelled as an explicit
state record threaded through the translated methods.
-/

namespace LSP

/-! ## Transport codec (from `setupMessageHandler`)

The decoder keeps an accumulation string `buffer` and a counter
`contentLength` (`-1`, i.e. `none`, meaning "no header parsed yet"), and on
each data arrival appends to the buffer and loops: find the `\r\n\r\n`
header terminator, read `Content-Length`, then slice off exactly that many
characters as a message body. -/

/-- The header terminator searched for by `buffer.indexOf('\r\n\r\n')`. -/
def crlfcrlf : List Char := ['\r', '\n', '\r', '\n']

/-- `s.indexOf(pat)` on strings: index of the leftmost occurrence of `pat`. -/
def findSub (pat : List Char) : List Char → Option Nat
  | [] => if pat.isPrefixOf ([] : List Char) then some 0 else none
  | c :: rest =>
    if pat.isPrefixOf (c :: rest) then some 0 else (findSub pat rest).map (· + 1)

/-- Whitespace class of the regex `\s` as it occurs in header fields. -/
def isWsChar (c : Char) : Bool :=
  c = ' ' || c = '\t' || c = '\n' || c = '\r' || c = '\x0c' || c = '\x0b'

def skipWs : List Char → List Char
  | [] => []
  | c :: r => if isWsChar c then skipWs r else c :: r

def digitsToNat (ds : List Char) : Nat :=
  ds.foldl (fun a c => a * 10 + (c.toNat - 48)) 0

/-- Lower-cased literal part of the regex `/Content-Length:\s*(\d+)/i`. -/
def clKeyLower : List Char := "content-length:".toList

/-- `header.match(/Content-Length:\s*(\d+)/i)` followed by
`parseInt(match[1], 10)`: scan for the leftmost position where the literal
matches case-insensitively and is followed (after `\s*`) by at least one
digit; the captured digits are read as a decimal number. -/
def parseContentLength : List Char → Option Nat
  | [] => none
  | c :: r =>
    if clKeyLower.isPrefixOf ((c :: r).map Char.toLower) then
      let after := (c :: r).drop clKeyLower.length
      let ds := (skipWs after).takeWhile Char.isDigit
      if ds.length > 0 then some (digitsToNat ds) else parseContentLength r
    else parseContentLength r

/-- Decoder state per server connection: the accumulation buffer and the
"bytes still expected" counter (`none` models the sentinel `-1`). -/
structure DecState where
  buffer : List Char
  contentLength : Option Nat
deriving DecidableEq

def drainMeasure (s : DecState) : Nat :=
  2 * s.buffer.length + (match s.contentLength with | some _ => 1 | none => 0)

theorem findSub_some_le {pat s : List Char} {i : Nat}
    (h : findSub pat s = some i) : i + pat.length ≤ s.length := by
  induction s generalizing i with
  | nil =>
    unfold findSub at h
    split at h
    · next hp =>
      cases h
      have := List.isPrefixOf_iff_prefix.mp hp
      simpa using this.length_le
    · cases h
  | cons c rest ih =>
    unfold findSub at h
    split at h
    · next hp =>
      cases h
      have := (List.isPrefixOf_iff_prefix.mp hp).length_le
      simpa using this
    · next =>
      rcases Option.map_eq_some'.mp h with ⟨j, hj, rfl⟩
      have := ih hj
      simp only [List.length_cons]
      omega

/-- The decoder loop body of `setupMessageHandler`, run until it has to wait
for more data.  Returns the quiescent state and the message bodies sliced
off (each body is subsequently fed to `JSON.parse` and `handleMessage`). -/
def drain : DecState → DecState × List (List Char)
  | ⟨b, none⟩ =>
    match h2 : findSub crlfcrlf b with
    | none => (⟨b, none⟩, [])
    | some headerEnd =>
      match parseContentLength (b.take headerEnd) with
      | some n => drain ⟨b.drop (headerEnd + 4), some n⟩
      | none => (⟨b.drop (headerEnd + 4), none⟩, [])
  | ⟨b, some n⟩ =>
    if h : n ≤ b.length then
      ((drain ⟨b.drop n, none⟩).1, b.take n :: (drain ⟨b.drop n, none⟩).2)
    else (⟨b, some n⟩, [])
termination_by s => drainMeasure s
decreasing_by
  · have h4 := findSub_some_le h2
    simp only [drainMeasure, List.length_drop]
    have : (4 : Nat) ≤ crlfcrlf.length := by decide
    omega
  · simp only [drainMeasure, List.length_drop]
    omega

/-- One `data` event: append the chunk to the buffer, then drain. -/
def feed (s : DecState) (c : List Char) : DecState × List (List Char) :=
  drain ⟨s.buffer ++ c, s.contentLength⟩

/-- A sequence of `data` events, collecting all decoded bodies in order. -/
def feedAll (s : DecState) : List (List Char) → DecState × List (List Char)
  | [] => (s, [])
  | c :: cs =>
    ((feedAll (feed s c).1 cs).1, (feed s c).2 ++ (feedAll (feed s c).1 cs).2)

/-- Decoder state installed per connection: `buffer = ''`, `contentLength = -1`. -/
def initState : DecState := ⟨[], none⟩

/-- A Content-Length frame as put on the wire: header text and message body. -/
structure Frame where
  header : List Char
  body : List Char
deriving DecidableEq

def encFrame (f : Frame) : List Char := f.header ++ crlfcrlf ++ f.body

/-- The byte stream produced by writing a sequence of frames back-to-back. -/
def stream (fs : List Frame) : List Char := (fs.map encFrame).flatten

/-- Well-formedness of one frame: its header declares the body's exact
length, and the header terminator does not occur (even overlapping the real
terminator) before the header's end, so that `indexOf('\r\n\r\n')` finds the
real terminator. -/
def WFFrame (f : Frame) : Prop :=
  parseContentLength f.header = some f.body.length ∧
  ∀ j, j < f.header.length →
    crlfcrlf.isPrefixOf ((f.header ++ crlfcrlf).drop j) = false

instance (f : Frame) : Decidable (WFFrame f) := by
  unfold WFFrame; infer_instance

/-- Canonical decode of a prefix `p` of a frame stream: the bodies of the
frames wholly contained in `p`, and the quiescent decoder state reached
after consuming `p`. -/
def procPrefix : List Frame → List Char → List (List Char) × DecState
  | [], p => ([], ⟨p, none⟩)
  | f :: fs, p =>
    if (encFrame f).length ≤ p.length then
      (f.body :: (procPrefix fs (p.drop (encFrame f).length)).1,
       (procPrefix fs (p.drop (encFrame f).length)).2)
    else if f.header.length + 4 ≤ p.length then
      ([], ⟨p.drop (f.header.length + 4), some f.body.length⟩)
    else ([], ⟨p, none⟩)

/-! ### Supporting lemmas for the codec proof -/

theorem isPrefixOfIff {l₁ l₂ : List Char} : l₁.isPrefixOf l₂ = true ↔ l₁ <+: l₂ :=
  List.isPrefixOf_iff_prefix

theorem prefixOfAppendLeft {q a b : List Char} (h : q <+: a ++ b)
    (hle : q.length ≤ a.length) : q <+: a := by
  have hq := List.prefix_iff_eq_take.mp h
  rw [List.take_append_eq_append_take, Nat.sub_eq_zero_of_le hle, List.take_zero,
    List.append_nil] at hq
  rw [hq]
  exact List.take_prefix _ _

theorem prefixDropMono {q a : List Char} (h : q <+: a) (j : Nat) :
    q.drop j <+: a.drop j := by
  obtain ⟨t, rfl⟩ := h
  rw [List.drop_append_eq_append_drop]
  exact List.prefix_append _ _

theorem prefixSplit {q a b : List Char} (h : q <+: a ++ b)
    (hle : a.length ≤ q.length) :
    q = a ++ q.drop a.length ∧ q.drop a.length <+: b := by
  have hq := List.prefix_iff_eq_take.mp h
  rw [List.take_append_eq_append_take, List.take_of_length_le hle] at hq
  have hdrop : q.drop a.length = b.take (q.length - a.length) := by
    conv_lhs => rw [hq]
    rw [List.drop_left]
  refine ⟨?_, ?_⟩
  · calc q = a ++ List.take (q.length - a.length) b := hq
      _ = a ++ q.drop a.length := by rw [hdrop]
  · rw [hdrop]; exact List.take_prefix _ _

theorem findSub_some_found {pat s : List Char} {i : Nat}
    (h : findSub pat s = some i) : pat <+: s.drop i := by
  induction s generalizing i with
  | nil =>
    unfold findSub at h
    split at h
    · next hp =>
      cases h
      simpa using isPrefixOfIff.mp hp
    · cases h
  | cons c rest ih =>
    unfold findSub at h
    split at h
    · next hp =>
      cases h
      simpa using isPrefixOfIff.mp hp
    · next =>
      rcases Option.map_eq_some'.mp h with ⟨j, hj, rfl⟩
      simpa using ih hj

theorem findSub_some_min {pat s : List Char} {i : Nat}
    (h : findSub pat s = some i) : ∀ j, j < i → ¬ pat <+: s.drop j := by
  induction s generalizing i with
  | nil =>
    intro j hj
    unfold findSub at h
    split at h
    · cases h; omega
    · cases h
  | cons c rest ih =>
    intro j hj
    unfold findSub at h
    split at h
    · cases h; omega
    · next hp =>
      rcases Option.map_eq_some'.mp h with ⟨k, hk, rfl⟩
      cases j with
      | zero =>
        intro hc
        exact hp (isPrefixOfIff.mpr (by simpa using hc))
      | succ j' =>
        exact fun hc => ih hk j' (by omega) (by simpa using hc)

theorem findSub_eq_some_of {pat s : List Char} {i : Nat}
    (h1 : pat <+: s.drop i) (h2 : ∀ j, j < i → ¬ pat <+: s.drop j) :
    findSub pat s = some i := by
  induction s generalizing i with
  | nil =>
    simp only [List.drop_nil] at h1
    cases Nat.eq_zero_or_pos i with
    | inl h0 =>
      subst h0
      unfold findSub
      rw [if_pos (isPrefixOfIff.mpr h1)]
    | inr hpos =>
      exact absurd h1 (by simpa using h2 0 hpos)
  | cons c rest ih =>
    unfold findSub
    cases Nat.eq_zero_or_pos i with
    | inl h0 =>
      subst h0
      rw [if_pos (isPrefixOfIff.mpr (by simpa using h1))]
    | inr hpos =>
      have hnot : ¬ (pat.isPrefixOf (c :: rest) = true) := by
        intro hc
        exact h2 0 hpos (by simpa using isPrefixOfIff.mp hc)
      rw [if_neg hnot]
      obtain ⟨i', rfl⟩ : ∃ i', i = i' + 1 := ⟨i - 1, by omega⟩
      rw [ih (by simpa using h1) (fun j hj => by simpa using h2 (j + 1) (by omega))]
      rfl

theorem findSub_eq_none_of {pat s : List Char} (h : ∀ j, ¬ pat <+: s.drop j) :
    findSub pat s = none := by
  induction s with
  | nil =>
    unfold findSub
    rw [if_neg]
    intro hc
    exact h 0 (by simpa using isPrefixOfIff.mp hc)
  | cons c rest ih =>
    unfold findSub
    have hnot : ¬ (pat.isPrefixOf (c :: rest) = true) := by
      intro hc
      exact h 0 (by simpa using isPrefixOfIff.mp hc)
    rw [if_neg hnot, ih (fun j => by simpa using h (j + 1))]
    rfl

theorem encFrame_length (f : Frame) :
    (encFrame f).length = f.header.length + 4 + f.body.length := by
  simp only [encFrame, List.length_append]
  have : crlfcrlf.length = 4 := by decide
  omega

/-- A well-formed header's terminator is found exactly at the header's end,
regardless of what follows. -/
theorem wfFindSub {f : Frame} (hf : WFFrame f) (t : List Char) :
    findSub crlfcrlf (f.header ++ crlfcrlf ++ t) = some f.header.length := by
  apply findSub_eq_some_of
  · rw [List.append_assoc, List.drop_left]
    exact List.prefix_append _ _
  · intro j hj hc
    rw [List.drop_append_eq_append_drop] at hc
    have hlen4 : (f.header ++ crlfcrlf).length = f.header.length + 4 := by
      simp only [List.length_append]
      have : crlfcrlf.length = 4 := by decide
      omega
    have hj0 : j - (f.header ++ crlfcrlf).length = 0 := by omega
    rw [hj0, List.drop_zero] at hc
    have hcc : crlfcrlf <+: (f.header ++ crlfcrlf).drop j := by
      apply prefixOfAppendLeft hc
      have : crlfcrlf.length = 4 := by decide
      rw [List.length_drop]
      omega
    have := hf.2 j hj
    rw [isPrefixOfIff.mpr hcc] at this
    cases this

/-- No proper prefix of a well-formed header-plus-terminator contains the
terminator, so the decoder waits for more data. -/
theorem wfFindSubShort {f : Frame} (hf : WFFrame f) {q : List Char}
    (hq : q <+: f.header ++ crlfcrlf) (hlen : q.length < f.header.length + 4) :
    findSub crlfcrlf q = none := by
  apply findSub_eq_none_of
  intro j hc
  have h4 : crlfcrlf.length = 4 := by decide
  have hjq : j + 4 ≤ q.length := by
    have := hc.length_le
    rw [List.length_drop] at this
    omega
  have hj : j < f.header.length := by omega
  have hcc : crlfcrlf <+: (f.header ++ crlfcrlf).drop j :=
    hc.trans (prefixDropMono hq j)
  have := hf.2 j hj
  rw [isPrefixOfIff.mpr hcc] at this
  cases this

/-! ### Unfolding lemmas for `drain` and `procPrefix` -/

theorem drain_none_stop (b : List Char) (h : findSub crlfcrlf b = none) :
    drain ⟨b, none⟩ = (⟨b, none⟩, []) := by
  conv_lhs => unfold drain
  rw [h]

theorem drain_none_header (b : List Char) (he n : Nat)
    (h : findSub crlfcrlf b = some he)
    (hp : parseContentLength (b.take he) = some n) :
    drain ⟨b, none⟩ = drain ⟨b.drop (he + 4), some n⟩ := by
  conv_lhs => unfold drain
  rw [h]
  split
  · next heq => exact absurd heq (by simp)
  · next headerEnd heq =>
    cases heq
    rw [hp]

theorem drain_some_body (b : List Char) (n : Nat) (h : n ≤ b.length) :
    drain ⟨b, some n⟩
      = ((drain ⟨b.drop n, none⟩).1, b.take n :: (drain ⟨b.drop n, none⟩).2) := by
  conv_lhs => unfold drain
  rw [dif_pos h]

theorem drain_some_wait (b : List Char) (n : Nat) (h : ¬ n ≤ b.length) :
    drain ⟨b, some n⟩ = (⟨b, some n⟩, []) := by
  conv_lhs => unfold drain
  rw [dif_neg h]

theorem procPrefix_ge (f : Frame) (fs : List Frame) (p : List Char)
    (h : (encFrame f).length ≤ p.length) :
    procPrefix (f :: fs) p
      = (f.body :: (procPrefix fs (p.drop (encFrame f).length)).1,
         (procPrefix fs (p.drop (encFrame f).length)).2) := by
  conv_lhs => unfold procPrefix
  rw [if_pos h]

theorem procPrefix_mid (f : Frame) (fs : List Frame) (p : List Char)
    (h1 : ¬ (encFrame f).length ≤ p.length)
    (h2 : f.header.length + 4 ≤ p.length) :
    procPrefix (f :: fs) p
      = ([], ⟨p.drop (f.header.length + 4), some f.body.length⟩) := by
  conv_lhs => unfold procPrefix
  rw [if_neg h1, if_pos h2]

theorem procPrefix_short (f : Frame) (fs : List Frame) (p : List Char)
    (h2 : p.length < f.header.length + 4) :
    procPrefix (f :: fs) p = ([], ⟨p, none⟩) := by
  have h1 : ¬ (encFrame f).length ≤ p.length := by
    rw [encFrame_length]; omega
  conv_lhs => unfold procPrefix
  rw [if_neg h1, if_neg (by omega)]

theorem procPrefix_nil (fs : List Frame) : procPrefix fs [] = ([], ⟨[], none⟩) := by
  cases fs with
  | nil => rfl
  | cons f fs => rw [procPrefix_short f fs [] (by simp)]

theorem stream_nil : stream [] = [] := rfl

theorem stream_cons (f : Frame) (fs : List Frame) :
    stream (f :: fs) = encFrame f ++ stream fs := by
  simp [stream]

theorem stream_cons' (f : Frame) (fs : List Frame) :
    stream (f :: fs) = (f.header ++ crlfcrlf) ++ (f.body ++ stream fs) := by
  rw [stream_cons]
  simp [encFrame, List.append_assoc]

theorem procPrefix_full (fs : List Frame) :
    procPrefix fs (stream fs) = (fs.map Frame.body, ⟨[], none⟩) := by
  induction fs with
  | nil => rfl
  | cons f fs ih =>
    rw [stream_cons, procPrefix_ge f fs _ (by simp), List.drop_left, ih]
    rfl

/-- Core composition lemma: from the quiescent decoder state reached after
any prefix `q` of a well-formed frame stream, feeding a further chunk `c`
drains to the canonical state of `q ++ c`, emitting exactly the bodies of
the frames completed in between. -/
theorem drain_resume (fs : List Frame) (hwf : ∀ f ∈ fs, WFFrame f) :
    ∀ q c : List Char, (q ++ c) <+: stream fs →
    ∃ d, (procPrefix fs (q ++ c)).1 = (procPrefix fs q).1 ++ d ∧
      drain ⟨(procPrefix fs q).2.buffer ++ c, (procPrefix fs q).2.contentLength⟩
        = ((procPrefix fs (q ++ c)).2, d) := by
  induction fs with
  | nil =>
    intro q c hpre
    rw [stream_nil] at hpre
    have hlen0 := hpre.length_le
    simp only [List.length_append, List.length_nil, Nat.le_zero] at hlen0
    have hq : q = [] := List.eq_nil_of_length_eq_zero (by omega)
    have hc : c = [] := List.eq_nil_of_length_eq_zero (by omega)
    subst hq; subst hc
    refine ⟨[], by simp [procPrefix], ?_⟩
    simp only [procPrefix, List.append_nil]
    exact drain_none_stop [] (by decide)
  | cons f fs ih =>
    intro q c hpre
    have hwff : WFFrame f := hwf f (List.mem_cons_self f fs)
    have hwfs : ∀ g ∈ fs, WFFrame g := fun g hg => hwf g (List.mem_cons_of_mem f hg)
    have hLlen : (encFrame f).length = f.header.length + 4 + f.body.length :=
      encFrame_length f
    have hhl : (f.header ++ crlfcrlf).length = f.header.length + 4 := by
      simp only [List.length_append]
      have : crlfcrlf.length = 4 := by decide
      omega
    -- body step: draining a buffer that begins with the full body emits the
    -- body and continues on the remaining stream
    have hbody : ∀ r : List Char, r <+: f.body ++ stream fs →
        f.body.length ≤ r.length →
        drain ⟨r, some f.body.length⟩
          = ((procPrefix fs (r.drop f.body.length)).2,
             f.body :: (procPrefix fs (r.drop f.body.length)).1) := by
      intro r hr hrl
      obtain ⟨hreq, hrdrop⟩ := prefixSplit hr hrl
      obtain ⟨d', hd1, hd2⟩ := ih hwfs [] (r.drop f.body.length) (by simpa using hrdrop)
      simp only [List.nil_append, procPrefix_nil] at hd1 hd2
      rw [drain_some_body r f.body.length hrl]
      have htake : r.take f.body.length = f.body := by
        conv_lhs => rw [hreq]
        exact List.take_left _ _
      rw [htake, hd2, hd1]
    rcases le_or_lt (encFrame f).length q.length with hA | hnA
    · -- the prefix `q` already covers the whole first frame
      have hq0 : q <+: stream (f :: fs) := (List.prefix_append q c).trans hpre
      rw [stream_cons] at hq0
      obtain ⟨hqeq, hqdrop⟩ := prefixSplit hq0 hA
      have hqc : q ++ c = encFrame f ++ (q.drop (encFrame f).length ++ c) := by
        conv_lhs => rw [hqeq]
        rw [List.append_assoc]
      have hpre' : q.drop (encFrame f).length ++ c <+: stream fs := by
        have h := hpre
        rw [stream_cons, hqc] at h
        exact (List.prefix_append_right_inj _).mp h
      obtain ⟨d, hd1, hd2⟩ := ih hwfs (q.drop (encFrame f).length) c hpre'
      have hAc : (encFrame f).length ≤ (q ++ c).length := by
        rw [List.length_append]; omega
      have hdropqc : (q ++ c).drop (encFrame f).length
          = q.drop (encFrame f).length ++ c := by
        rw [List.drop_append_eq_append_drop, Nat.sub_eq_zero_of_le hA,
          List.drop_zero]
      refine ⟨d, ?_, ?_⟩
      · rw [procPrefix_ge f fs _ hAc, procPrefix_ge f fs _ hA]
        simp only [hdropqc, hd1, List.cons_append]
      · rw [procPrefix_ge f fs _ hAc, procPrefix_ge f fs _ hA]
        simp only [hdropqc]
        exact hd2
    · rcases le_or_lt (f.header.length + 4) q.length with hB | hnB
      · -- `q` ends inside the first frame's body
        have hq0 : q <+: stream (f :: fs) := (List.prefix_append q c).trans hpre
        rw [stream_cons'] at hq0
        obtain ⟨hqeq, hqdrop⟩ := prefixSplit hq0 (by rw [hhl]; omega)
        rw [hhl] at hqeq hqdrop
        have hrlen : (q.drop (f.header.length + 4)).length < f.body.length := by
          rw [List.length_drop]; omega
        have hPq := procPrefix_mid f fs q (by omega) hB
        have hdropqc : (q ++ c).drop (f.header.length + 4)
            = q.drop (f.header.length + 4) ++ c := by
          rw [List.drop_append_eq_append_drop, Nat.sub_eq_zero_of_le hB,
            List.drop_zero]
        have hqc : q ++ c
            = (f.header ++ crlfcrlf) ++ (q.drop (f.header.length + 4) ++ c) := by
          conv_lhs => rw [hqeq]
          rw [List.append_assoc]
        have hrc : q.drop (f.header.length + 4) ++ c <+: f.body ++ stream fs := by
          have h := hpre
          rw [stream_cons', hqc] at h
          exact (List.prefix_append_right_inj _).mp h
        have hlenqc : (q ++ c).length
            = f.header.length + 4 + (q.drop (f.header.length + 4) ++ c).length := by
          rw [hqc, List.length_append, hhl]
        rcases le_or_lt f.body.length (q.drop (f.header.length + 4) ++ c).length
          with hB2 | hB1
        · -- chunk completes the body
          have hdd := hbody _ hrc hB2
          have hAc : (encFrame f).length ≤ (q ++ c).length := by omega
          have hdropL : (q ++ c).drop (encFrame f).length
              = (q.drop (f.header.length + 4) ++ c).drop f.body.length := by
            rw [hqc, List.drop_append_eq_append_drop]
            have h1 : (f.header ++ crlfcrlf).drop (encFrame f).length = [] :=
              List.drop_eq_nil_of_le (by rw [hhl, hLlen]; omega)
            rw [h1, hhl, hLlen, List.nil_append]
            congr 1
            omega
          refine ⟨f.body ::
            (procPrefix fs ((q.drop (f.header.length + 4) ++ c).drop
              f.body.length)).1, ?_, ?_⟩
          · rw [procPrefix_ge f fs _ hAc, hPq]
            simp only [hdropL, List.nil_append]
          · rw [hPq, procPrefix_ge f fs _ hAc]
            simp only [hdropL]
            rw [hdd]
        · -- still waiting for the rest of the body
          refine ⟨[], ?_, ?_⟩
          · rw [procPrefix_mid f fs (q ++ c) (by omega) (by omega), hPq]
            simp
          · rw [hPq, procPrefix_mid f fs (q ++ c) (by omega) (by omega)]
            simp only [hdropqc]
            exact drain_some_wait _ f.body.length (by omega)
      · -- `q` ends inside the first frame's header
        have hPq := procPrefix_short f fs q hnB
        rcases lt_or_le (q ++ c).length (f.header.length + 4) with hC1 | hC2
        · -- still inside the header: decoder waits
          have hqc0 : q ++ c <+: f.header ++ crlfcrlf := by
            have h := hpre
            rw [stream_cons'] at h
            exact prefixOfAppendLeft h (by rw [hhl]; omega)
          have hfind : findSub crlfcrlf (q ++ c) = none :=
            wfFindSubShort hwff hqc0 hC1
          refine ⟨[], ?_, ?_⟩
          · rw [procPrefix_short f fs (q ++ c) hC1, hPq]
            simp
          · rw [hPq, procPrefix_short f fs (q ++ c) hC1,
              drain_none_stop (q ++ c) hfind]
        · -- the header completes within `q ++ c`
          have hq0 : q ++ c <+: (f.header ++ crlfcrlf) ++ (f.body ++ stream fs) := by
            rw [← stream_cons']
            exact hpre
          obtain ⟨hqceq, hqcdrop⟩ := prefixSplit hq0 (by rw [hhl]; omega)
          rw [hhl] at hqceq hqcdrop
          have hshape : q ++ c
              = f.header ++ crlfcrlf ++ (q ++ c).drop (f.header.length + 4) := hqceq
          have hfind : findSub crlfcrlf (q ++ c) = some f.header.length := by
            conv_lhs => rw [hshape]
            exact wfFindSub hwff _
          have htakehdr : (q ++ c).take f.header.length = f.header := by
            conv_lhs => rw [hshape]
            rw [List.append_assoc]
            exact List.take_left _ _
          have hdrain1 : drain ⟨q ++ c, none⟩
              = drain ⟨(q ++ c).drop (f.header.length + 4),
                  some f.body.length⟩ := by
            have h := drain_none_header (q ++ c) f.header.length f.body.length
              hfind (by rw [htakehdr]; exact hwff.1)
            exact h
          have hlenqc : (q ++ c).length
              = f.header.length + 4 + ((q ++ c).drop (f.header.length + 4)).length := by
            rw [List.length_drop]; omega
          rcases le_or_lt f.body.length ((q ++ c).drop (f.header.length + 4)).length
            with hC2b | hC2a
          · -- body also completes
            have hdd := hbody _ hqcdrop hC2b
            have hAc : (encFrame f).length ≤ (q ++ c).length := by omega
            have hdropL : (q ++ c).drop (encFrame f).length
                = ((q ++ c).drop (f.header.length + 4)).drop f.body.length := by
              conv_lhs => rw [hqceq]
              rw [List.drop_append_eq_append_drop]
              have h1 : (f.header ++ crlfcrlf).drop (encFrame f).length = [] :=
                List.drop_eq_nil_of_le (by rw [hhl, hLlen]; omega)
              rw [h1, hhl, hLlen, List.nil_append]
              congr 1
              omega
            refine ⟨f.body ::
              (procPrefix fs (((q ++ c).drop (f.header.length + 4)).drop
                f.body.length)).1, ?_, ?_⟩
            · rw [procPrefix_ge f fs _ hAc, hPq]
              simp only [hdropL, List.nil_append]
            · rw [hPq, procPrefix_ge f fs _ hAc]
              simp only [hdropL]
              rw [hdrain1, hdd]
          · -- wait for the body
            refine ⟨[], ?_, ?_⟩
            · rw [procPrefix_mid f fs (q ++ c) (by omega) hC2, hPq]
              simp
            · rw [hPq, procPrefix_mid f fs (q ++ c) (by omega) hC2]
              rw [hdrain1]
              exact drain_some_wait _ f.body.length (by omega)

/-- Chunk-by-chunk feeding stays on the canonical decode of the consumed
prefix, accumulating exactly the completed frames' bodies. -/
theorem feedAll_canon (fs : List Frame) (hwf : ∀ f ∈ fs, WFFrame f) :
    ∀ (cs : List (List Char)) (q : List Char),
      q ++ cs.flatten <+: stream fs →
      ∃ d, (procPrefix fs (q ++ cs.flatten)).1 = (procPrefix fs q).1 ++ d ∧
        feedAll (procPrefix fs q).2 cs = ((procPrefix fs (q ++ cs.flatten)).2, d) := by
  intro cs
  induction cs with
  | nil =>
    intro q hpre
    refine ⟨[], ?_, ?_⟩ <;> simp [feedAll]
  | cons c cs ihc =>
    intro q hpre
    have hflat : (c :: cs).flatten = c ++ cs.flatten := by simp
    have hpre1 : (q ++ c) ++ cs.flatten <+: stream fs := by
      rw [List.append_assoc]
      rw [hflat] at hpre
      exact hpre
    have hqc : q ++ c <+: stream fs := (List.prefix_append _ _).trans hpre1
    obtain ⟨d₁, hd11, hd12⟩ := drain_resume fs hwf q c hqc
    obtain ⟨d₂, hd21, hd22⟩ := ihc (q ++ c) hpre1
    have heq : q ++ (c :: cs).flatten = (q ++ c) ++ cs.flatten := by
      rw [hflat, List.append_assoc]
    refine ⟨d₁ ++ d₂, ?_, ?_⟩
    · rw [heq, hd21, hd11, List.append_assoc]
    · have hfeed : feed (procPrefix fs q).2 c = ((procPrefix fs (q ++ c)).2, d₁) := by
        unfold feed
        exact hd12
      simp only [feedAll, hfeed]
      rw [heq, hd22]

/-- **C1.** For every well-formed sequence of Content-Length-framed JSON-RPC
messages, and for every way of splitting the concatenated byte stream into
successive data deliveries (splits mid-header, mid-body, or with multiple
whole frames in one delivery), feeding the deliveries in order to the
stateful decoder set up per server connection (`setupMessageHandler`)
produces exactly the original ordered sequence of message bodies — so the
`JSON.parse` of each emitted body is exactly the original parsed JSON
message, in order — and leaves the decoder in its initial quiescent state. -/
theorem c1_decoder_reconstructs (fs : List Frame) (hwf : ∀ f ∈ fs, WFFrame f)
    (cs : List (List Char)) (hcs : cs.flatten = stream fs) :
    feedAll initState cs = (⟨[], none⟩, fs.map Frame.body) := by
  obtain ⟨d, hd1, hd2⟩ := feedAll_canon fs hwf cs []
    (by rw [List.nil_append, hcs])
  simp only [List.nil_append, procPrefix_nil, hcs, procPrefix_full] at hd1 hd2
  show feedAll (⟨[], none⟩ : DecState) cs = (⟨[], none⟩, fs.map Frame.body)
  rw [hd2, ← hd1]

/-- Concrete two-frame stream for the C1 witness. -/
def c1Frames : List Frame :=
  [⟨"Content-Length: 2".toList, "\x7b\x7d".toList⟩,
   ⟨"Content-Length: 9".toList, "\x7b\"id\":12\x7d".toList⟩]

/-- A chunking of `stream c1Frames` that splits mid-header, mid-terminator
and mid-body, with one chunk containing the tail of one frame and most of
the next. -/
def c1Chunks : List (List Char) :=
  ["Content-Le".toList, "ngth: 2\r\n\r".toList,
   "\n\x7b\x7dContent-Length: 9\r\n\r\n\x7b\"i".toList,
   "d\":12\x7d".toList]

/-- Witness for C1: the hypotheses hold and the decode is exact on a
concrete fragmented two-frame stream. -/
theorem c1_decoder_reconstructs_witness :
    (∀ f ∈ c1Frames, WFFrame f) ∧ c1Chunks.flatten = stream c1Frames ∧
    feedAll initState c1Chunks = (⟨[], none⟩, c1Frames.map Frame.body) :=
  ⟨by decide, by decide,
    c1_decoder_reconstructs c1Frames (by decide) c1Chunks (by decide)⟩

/-! ## JavaScript values

A small model of the untyped JSON-like values the service passes around
(request parameters, hover payloads, symbol trees). -/

inductive JVal where
  | jnull
  | jbool (b : Bool)
  | jnum (n : Int)
  | jstr (s : String)
  | jarr (xs : List JVal)
  | jobj (fields : List (String × JVal))

/-- Property access `v.k` (`undefined`, i.e. `none`, on non-objects and
missing keys). -/
def JVal.getField : JVal → String → Option JVal
  | .jobj fs, k => fs.lookup k
  | _, _ => none

/-- JavaScript truthiness of a JSON-like value. -/
def jsTruthy : JVal → Bool
  | .jnull => false
  | .jbool b => b
  | .jnum n => n != 0
  | .jstr s => s != ""
  | .jarr _ => true
  | .jobj _ => true

/-! ## The `LSPService` instance state

The mutable fields of the class, as key sets / counters:
`servers` and `capabilities` hold the languages present as keys of the
corresponding Maps, `initialized` holds the languages mapped to `true`,
`pending` holds the ids present in `pendingRequests`, and `requestId` is
the counter.  `Map.delete` removes a key entirely, modelled by filtering. -/

structure SvcState where
  servers : List String
  requestId : Nat
  pending : List Nat
  initialized : List String
  capabilities : List String
deriving DecidableEq

/-- The state built by the constructor. -/
def initialService : SvcState := ⟨[], 0, [], [], []⟩

def eraseNatKey (l : List Nat) (i : Nat) : List Nat :=
  l.filter (fun j => j != i)

def eraseStrKey (l : List String) (s : String) : List String :=
  l.filter (fun t => t != s)

/-- Observable effects of one synchronous segment: a write to a server's
stdin pipe, or the settlement of a pending request's promise. -/
inductive Wire where
  | request (id : Nat) (method : String) (params : JVal)
  | notification (method : String) (params : JVal)

inductive Reason where
  | timeout    -- `new Error('LSP 请求超时')`
  | lspError   -- `new Error(message.error.message || 'LSP 错误')`
deriving DecidableEq

inductive Ev where
  | write (language : String) (msg : Wire)
  | resolveReq (id : Nat)
  | rejectReq (id : Nat) (why : Reason)

def isWrite : Ev → Bool
  | .write _ _ => true
  | _ => false

/-- Does this event settle (resolve or reject) request `i`? -/
def settlesId (i : Nat) : Ev → Bool
  | .resolveReq j => j == i
  | .rejectReq j _ => j == i
  | .write _ _ => false

/-- An inbound decoded message, as inspected by `handleMessage`:
its `id` field and whether its `error` field is set. -/
structure InMsg where
  id : Option Nat
  error : Bool

/-- `handleMessage(language, message)`: when the id matches a pending entry,
remove it, clear its timer, and settle the promise (reject on `error`,
resolve otherwise); all other messages are ignored. -/
def handleMessage (st : SvcState) (m : InMsg) : SvcState × List Ev :=
  match m.id with
  | some i =>
    if i ∈ st.pending then
      ({ st with pending := eraseNatKey st.pending i },
       [if m.error then .rejectReq i .lspError else .resolveReq i])
    else (st, [])
  | none => (st, [])

/-- The timeout callback armed by `sendRequest` firing for request `i`:
reject with the timeout error only when the entry is still present. -/
def timeoutFire (st : SvcState) (i : Nat) : SvcState × List Ev :=
  if i ∈ st.pending then
    ({ st with pending := eraseNatKey st.pending i }, [.rejectReq i .timeout])
  else (st, [])

/-- `sendRequest` up to the write of the frame (its synchronous part before
the response is awaited): allocate `++this.requestId`, register the pending
entry, arm the timer, write the framed request.  When no server is
registered for the language nothing is written and the promise rejects at
once (modelled by the `none` result). -/
def sendRequestStart (st : SvcState) (language method : String) (params : JVal) :
    SvcState × List Ev × Option Nat :=
  if language ∈ st.servers then
    ({ st with
        requestId := st.requestId + 1
        pending := (st.requestId + 1) :: st.pending },
     [.write language (.request (st.requestId + 1) method params)],
     some (st.requestId + 1))
  else (st, [], none)

/-- `sendNotification`: fire-and-forget write, silently dropped when no
server is registered. -/
def sendNotification (st : SvcState) (language method : String) (params : JVal) :
    SvcState × List Ev :=
  if language ∈ st.servers then
    (st, [.write language (.notification method params)])
  else (st, [])

/-- The `exit` handler installed by `setupMessageHandler` (the `error`
handler acts identically): remove the server from `servers` and
`initialized`; nothing else is touched and no pending request is settled. -/
def exitHandler (st : SvcState) (language : String) : SvcState × List Ev :=
  ({ st with
      servers := eraseStrKey st.servers language
      initialized := eraseStrKey st.initialized language }, [])

/-- The static command table of `getLSPCommand`. -/
structure LSPCmd where
  command : String
  args : List String
  fallback : Option (String × List String)

def getLSPCommand (language : String) : Option LSPCmd :=
  if language = "typescript" then
    some ⟨"typescript-language-server", ["--stdio"],
      some ("npx", ["typescript-language-server", "--stdio"])⟩
  else if language = "javascript" then
    some ⟨"typescript-language-server", ["--stdio"],
      some ("npx", ["typescript-language-server", "--stdio"])⟩
  else if language = "python" then
    some ⟨"pyright-langserver", ["--stdio"],
      some ("npx", ["pyright-langserver", "--stdio"])⟩
  else if language = "go" then some ⟨"gopls", ["serve"], none⟩
  else none

/-- The `initialize` request parameters built by `startServer`. -/
def initializeParams (pid : Int) (projectRoot : String) : JVal :=
  .jobj [("processId", .jnum pid),
    ("rootUri", .jstr ("file://" ++ projectRoot)),
    ("capabilities", .jobj [("textDocument", .jobj [
      ("definition", .jobj [("dynamicRegistration", .jbool false)]),
      ("references", .jobj [("dynamicRegistration", .jbool false)]),
      ("hover", .jobj [("contentFormat",
        .jarr [.jstr "plaintext", .jstr "markdown"])]),
      ("documentSymbol", .jobj [("dynamicRegistration", .jbool false)])])])]

inductive StartPhase1Out where
  | alreadyStarted
  | unsupported
  | awaitingInit (id : Nat)

/-- `startServer` from entry up to its first await of the `initialize`
response, on the path where the spawn succeeds.  Note the server is
registered in `this.servers` *before* the handshake completes, and a
registered server short-circuits the whole method. -/
def startServerPhase1 (st : SvcState) (language : String) (pid : Int)
    (projectRoot : String) : SvcState × List Ev × StartPhase1Out :=
  if language ∈ st.servers then (st, [], .alreadyStarted)
  else
    match getLSPCommand language with
    | none => (st, [], .unsupported)
    | some _ =>
      let st1 := { st with servers := language :: st.servers }
      match sendRequestStart st1 language "initialize"
        (initializeParams pid projectRoot) with
      | (st2, evs, some i) => (st2, evs, .awaitingInit i)
      | (st2, evs, none) => (st2, evs, .unsupported)
      -- the last branch is unreachable: the language was registered just above

/-- The remainder of `startServer` after the `initialize` response resolves:
record the capabilities, send the `initialized` notification, and mark the
language initialized. -/
def startServerPhase2 (st : SvcState) (language : String) : SvcState × List Ev :=
  let st1 := { st with capabilities := language :: st.capabilities }
  ({ (sendNotification st1 language "initialized" (.jobj [])).1 with
      initialized := language :: st1.initialized },
   (sendNotification st1 language "initialized" (.jobj [])).2)

/-- A whole `startServer` run under the prompt-response schedule: the spawn
succeeds and the `initialize` result (no error) is delivered before
anything else runs. -/
def startServerRun (st : SvcState) (language : String) (pid : Int)
    (projectRoot : String) : SvcState × List Ev × Bool :=
  match startServerPhase1 st language pid projectRoot with
  | (st1, evs1, .alreadyStarted) => (st1, evs1, true)
  | (st1, evs1, .unsupported) => (st1, evs1, false)
  | (st1, evs1, .awaitingInit i) =>
    ((startServerPhase2 (handleMessage st1 ⟨some i, false⟩).1 language).1,
     evs1 ++ (handleMessage st1 ⟨some i, false⟩).2
          ++ (startServerPhase2 (handleMessage st1 ⟨some i, false⟩).1 language).2,
     true)

/-- `.toLowerCase()` on the ASCII strings the service compares. -/
def toLowerStr (s : String) : String := String.mk (s.toList.map Char.toLower)

/-- `path.extname(p)`: the dot-suffix of the final path segment (empty when
the segment has no dot, or only a leading dot). -/
def extname (p : String) : String :=
  let base := (p.toList.reverse.takeWhile (fun c => c ≠ '/')).reverse
  let afterDot := base.reverse.takeWhile (fun c => c ≠ '.')
  if afterDot.length = base.length then ""
  else if base.length - afterDot.length - 1 = 0 then ""
  else String.mk (base.drop (base.length - afterDot.length - 1))

/-- `getLanguageFromFile`: the extension-to-language table. -/
def getLanguageFromFile (filePath : String) : Option String :=
  let ext := toLowerStr (extname filePath)
  if ext = ".ts" then some "typescript"
  else if ext = ".tsx" then some "typescript"
  else if ext = ".js" then some "javascript"
  else if ext = ".jsx" then some "javascript"
  else if ext = ".mjs" then some "javascript"
  else if ext = ".cjs" then some "javascript"
  else if ext = ".py" then some "python"
  else if ext = ".go" then some "go"
  else if ext = ".rs" then some "rust"
  else none

/-- `ensureServerForFile` under the prompt-response schedule: resolve the
language; start the server only when `initialized.get(language)` is not
`true`; return the language regardless of start success. -/
def ensureServerForFileRun (st : SvcState) (filePath : String) (pid : Int)
    (projectRoot : String) : SvcState × List Ev × Option String :=
  match getLanguageFromFile filePath with
  | none => (st, [], none)
  | some language =>
    if language ∈ st.initialized then (st, [], some language)
    else
      ((startServerRun st language pid projectRoot).1,
       (startServerRun st language pid projectRoot).2.1, some language)

/-- `file://` + `path.resolve(filePath)`; the model supplies already
absolute, normalized paths, on which `path.resolve` is the identity. -/
def fileUri (filePath : String) : String := "file://" ++ filePath

/-- The `textDocument/didOpen` parameters: language id, version 1, and the
file's full text. -/
def didOpenParams (filePath language text : String) : JVal :=
  .jobj [("textDocument", .jobj [
    ("uri", .jstr (fileUri filePath)),
    ("languageId", .jstr language),
    ("version", .jnum 1),
    ("text", .jstr text)])]

/-- `openFile` on the path where reading the file succeeds with contents
`text`: ensure the server, then send `didOpen`.  There is no cache lookup:
the notification is rebuilt and resent on every call. -/
def openFileRun (st : SvcState) (filePath text : String) (pid : Int)
    (projectRoot : String) : SvcState × List Ev × Bool :=
  match ensureServerForFileRun st filePath pid projectRoot with
  | (st1, evs1, none) => (st1, evs1, false)
  | (st1, evs1, some language) =>
    ((sendNotification st1 language "textDocument/didOpen"
        (didOpenParams filePath language text)).1,
     evs1 ++ (sendNotification st1 language "textDocument/didOpen"
        (didOpenParams filePath language text)).2,
     true)

/-- Position payload of `textDocument/definition` and `textDocument/hover`:
the façade's 1-based coordinates minus one. -/
def positionParams (filePath : String) (line character : Int) : JVal :=
  .jobj [("textDocument", .jobj [("uri", .jstr (fileUri filePath))]),
    ("position", .jobj [("line", .jnum (line - 1)),
      ("character", .jnum (character - 1))])]

/-- Parameters of `textDocument/references` (adds `includeDeclaration`). -/
def referenceParams (filePath : String) (line character : Int) : JVal :=
  .jobj [("textDocument", .jobj [("uri", .jstr (fileUri filePath))]),
    ("position", .jobj [("line", .jnum (line - 1)),
      ("character", .jnum (character - 1))]),
    ("context", .jobj [("includeDeclaration", .jbool true)])]

/-- `goToDefinition` up to the await of the definition response: ensure the
server, open the file (contents `text`), and send the request built from
the 1-based façade coordinates. -/
def goToDefinitionSend (st : SvcState) (filePath text : String)
    (line character : Int) (pid : Int) (projectRoot : String) :
    SvcState × List Ev × Option Nat :=
  match ensureServerForFileRun st filePath pid projectRoot with
  | (st1, evs1, none) => (st1, evs1, none)
  | (st1, evs1, some language) =>
    ((sendRequestStart
        (openFileRun st1 filePath text pid projectRoot).1 language
        "textDocument/definition" (positionParams filePath line character)).1,
     evs1 ++ (openFileRun st1 filePath text pid projectRoot).2.1
          ++ (sendRequestStart
        (openFileRun st1 filePath text pid projectRoot).1 language
        "textDocument/definition" (positionParams filePath line character)).2.1,
     (sendRequestStart
        (openFileRun st1 filePath text pid projectRoot).1 language
        "textDocument/definition" (positionParams filePath line character)).2.2)

/-- The per-server loop of `shutdown()`: a `shutdown` request (awaited with
all failures swallowed), an `exit` notification, then `server.kill()`. -/
def shutdownLoop (acc : SvcState × List Ev) : List String → SvcState × List Ev
  | [] => acc
  | language :: rest =>
    shutdownLoop
      (((sendNotification
          (sendRequestStart acc.1 language "shutdown" .jnull).1
          language "exit" .jnull).1),
       acc.2 ++ (sendRequestStart acc.1 language "shutdown" .jnull).2.1
            ++ (sendNotification
          (sendRequestStart acc.1 language "shutdown" .jnull).1
          language "exit" .jnull).2)
      rest

/-- `shutdown()`: run the per-server teardown loop, then clear all four
tables (`servers`, `initialized`, `pendingRequests`; `capabilities` keeps
its entries in the source, and `requestId` is not reset).  Clearing the
pending table settles nothing. -/
def shutdownRun (st : SvcState) : SvcState × List Ev :=
  ({ (shutdownLoop (st, []) st.servers).1 with
      servers := []
      initialized := []
      pending := [] },
   (shutdownLoop (st, []) st.servers).2)

/-- Events that can hit the service afterwards. -/
inductive Act where
  | deliver (m : InMsg)
  | fire (i : Nat)
  | send (language method : String) (params : JVal)
  | notify (language method : String) (params : JVal)
  | procExit (language : String)
  | shutdownAll

def act (st : SvcState) : Act → SvcState × List Ev
  | .deliver m => handleMessage st m
  | .fire i => timeoutFire st i
  | .send language method params =>
    ((sendRequestStart st language method params).1,
     (sendRequestStart st language method params).2.1)
  | .notify language method params => sendNotification st language method params
  | .procExit language => exitHandler st language
  | .shutdownAll => shutdownRun st

def runActs (st : SvcState) : List Act → SvcState × List Ev
  | [] => (st, [])
  | a :: as =>
    ((runActs (act st a).1 as).1, (act st a).2 ++ (runActs (act st a).1 as).2)

/-! ## C2: crash handling -/

/-- Concrete state with one live typescript server and request `1` pending. -/
def c2State : SvcState :=
  ⟨["typescript"], 1, [1], ["typescript"], ["typescript"]⟩

/-- **C2 counterexample.** At a concrete state with request `1` pending on
the typescript server, the `exit` handler emits no events at all — in
particular it rejects nothing (no ServerCrashed outcome exists anywhere in
the code) — and leaves the pending entry in place.  This refutes the claim
that every request pending on a crashed server is rejected with a
ServerCrashed outcome. -/
theorem c2_counterexample :
    (exitHandler c2State "typescript").2 = [] ∧
    (exitHandler c2State "typescript").1.pending = [1] :=
  ⟨rfl, rfl⟩

/-- **C2 (amended).** When a server subprocess exits outside an orchestrated
stop, the handler removes the language from the server registry and from the
initialized set — so the next query for that language reaches a fresh spawn
attempt in `startServer` — but the requests pending on that server are not
settled at all: the handler emits no rejection (the code has no ServerCrashed
outcome), leaving each pending request to fail only when its own timer
fires. -/
theorem c2_exit_removes_registry_without_rejecting (st : SvcState)
    (language : String) (pid : Int) (root : String) (cmd : LSPCmd)
    (hcmd : getLSPCommand language = some cmd) :
    (exitHandler st language).2 = [] ∧
    (exitHandler st language).1.pending = st.pending ∧
    (exitHandler st language).1.requestId = st.requestId ∧
    language ∉ (exitHandler st language).1.servers ∧
    language ∉ (exitHandler st language).1.initialized ∧
    (startServerPhase1 (exitHandler st language).1 language pid root).2.2
      = .awaitingInit (st.requestId + 1) := by
  have hserv : language ∉ eraseStrKey st.servers language := by
    simp [eraseStrKey, List.mem_filter]
  have hinit : language ∉ eraseStrKey st.initialized language := by
    simp [eraseStrKey, List.mem_filter]
  refine ⟨rfl, rfl, rfl, hserv, hinit, ?_⟩
  simp [startServerPhase1, exitHandler, hserv, hcmd, sendRequestStart,
    List.mem_cons]

/-- Witness for C2 (amended) at the concrete crashed-server state. -/
theorem c2_exit_removes_registry_without_rejecting_witness :
    getLSPCommand "typescript"
      = some ⟨"typescript-language-server", ["--stdio"],
          some ("npx", ["typescript-language-server", "--stdio"])⟩ ∧
    (exitHandler c2State "typescript").1.pending = c2State.pending ∧
    "typescript" ∉ (exitHandler c2State "typescript").1.servers ∧
    (startServerPhase1 (exitHandler c2State "typescript").1 "typescript" 7 "/p").2.2
      = .awaitingInit 2 :=
  ⟨rfl,
   (c2_exit_removes_registry_without_rejecting c2State "typescript" 7 "/p" _ rfl).2.1,
   (c2_exit_removes_registry_without_rejecting c2State "typescript" 7 "/p" _ rfl).2.2.2.1,
   (c2_exit_removes_registry_without_rejecting c2State "typescript" 7 "/p" _ rfl).2.2.2.2.2⟩

/-! ## C3: per-request timeout then late-response discard -/

/-- **C3.** If a request's timer fires while its entry is still pending, the
request is rejected with the timeout error and its entry removed; every
other entry survives; and a response arriving afterwards for that id is
discarded by `handleMessage` — the state is unchanged and nothing is
resolved or rejected, so no other pending or future request is affected. -/
theorem c3_timeout_rejects_then_discards (st : SvcState) (i : Nat)
    (h : i ∈ st.pending) :
    (timeoutFire st i).2 = [.rejectReq i .timeout] ∧
    i ∉ (timeoutFire st i).1.pending ∧
    (∀ j, j ≠ i → ((j ∈ (timeoutFire st i).1.pending) ↔ j ∈ st.pending)) ∧
    (∀ m : InMsg, m.id = some i →
      handleMessage (timeoutFire st i).1 m = ((timeoutFire st i).1, [])) := by
  refine ⟨by simp [timeoutFire, h], ?_, ?_, ?_⟩
  · simp [timeoutFire, h, eraseNatKey, List.mem_filter]
  · intro j hj
    simp [timeoutFire, h, eraseNatKey, List.mem_filter, hj]
  · intro m hm
    simp [handleMessage, hm, timeoutFire, h, eraseNatKey, List.mem_filter]

def c3State : SvcState := ⟨["typescript"], 7, [3, 7], ["typescript"], []⟩

/-- Witness for C3: concrete timeout firing for pending id `3`, then a late
response for `3` being discarded. -/
theorem c3_timeout_rejects_then_discards_witness :
    3 ∈ c3State.pending ∧
    (timeoutFire c3State 3).2 = [.rejectReq 3 .timeout] ∧
    handleMessage (timeoutFire c3State 3).1 ⟨some 3, false⟩
      = ((timeoutFire c3State 3).1, []) :=
  ⟨by decide, (c3_timeout_rejects_then_discards c3State 3 (by decide)).1,
   (c3_timeout_rejects_then_discards c3State 3 (by decide)).2.2.2
     ⟨some 3, false⟩ rfl⟩

/-! ## C9: request id allocation -/

/-- A sequence of `sendRequest` calls (language, method, params), returning
the final state and each call's allocated id (`none` when the call had no
registered server and allocated nothing). -/
def sendSeq (st : SvcState) : List (String × String × JVal) →
    SvcState × List (Option Nat)
  | [] => (st, [])
  | r :: rest =>
    ((sendSeq (sendRequestStart st r.1 r.2.1 r.2.2).1 rest).1,
     (sendRequestStart st r.1 r.2.1 r.2.2).2.2
       :: (sendSeq (sendRequestStart st r.1 r.2.1 r.2.2).1 rest).2)

theorem sendRequestStart_requestId_le (st : SvcState) (l m : String) (p : JVal) :
    st.requestId ≤ (sendRequestStart st l m p).1.requestId := by
  unfold sendRequestStart
  split <;> simp

theorem sendRequestStart_id_eq (st : SvcState) (l m : String) (p : JVal)
    (i : Nat) (h : (sendRequestStart st l m p).2.2 = some i) :
    i = st.requestId + 1 ∧ (sendRequestStart st l m p).1.requestId = i := by
  unfold sendRequestStart at *
  split at h <;> simp_all

theorem sendSeq_requestId_le :
    ∀ (reqs : List (String × String × JVal)) (st : SvcState),
      st.requestId ≤ (sendSeq st reqs).1.requestId := by
  intro reqs
  induction reqs with
  | nil => intro st; simp [sendSeq]
  | cons r rest ih =>
    intro st
    calc st.requestId ≤ (sendRequestStart st r.1 r.2.1 r.2.2).1.requestId :=
          sendRequestStart_requestId_le st r.1 r.2.1 r.2.2
      _ ≤ (sendSeq (sendRequestStart st r.1 r.2.1 r.2.2).1 rest).1.requestId :=
          ih _

theorem sendSeq_ids_gt :
    ∀ (reqs : List (String × String × JVal)) (st : SvcState) (i : Nat),
      some i ∈ (sendSeq st reqs).2 → st.requestId < i := by
  intro reqs
  induction reqs with
  | nil => intro st i hi; simp [sendSeq] at hi
  | cons r rest ih =>
    intro st i hi
    simp only [sendSeq, List.mem_cons] at hi
    rcases hi with hi | hi
    · have := sendRequestStart_id_eq st r.1 r.2.1 r.2.2 i hi.symm
      omega
    · have h1 := ih (sendRequestStart st r.1 r.2.1 r.2.2).1 i hi
      have h2 := sendRequestStart_requestId_le st r.1 r.2.1 r.2.2
      omega

/-- **C9.** Request ids allocated by successive `sendRequest` calls are
strictly increasing: `++this.requestId` is a per-instance counter that is
never reset while a server process lives, so along any call sequence each
allocated id is strictly larger than every earlier one — in particular any
two distinct requests sent to the same live server receive different ids. -/
theorem c9_request_ids_strictly_increase (st : SvcState)
    (reqs : List (String × String × JVal)) :
    List.Pairwise (· < ·) ((sendSeq st reqs).2.filterMap (fun o => o)) := by
  induction reqs generalizing st with
  | nil => simp [sendSeq]
  | cons r rest ih =>
    simp only [sendSeq, List.filterMap_cons]
    cases ho : (sendRequestStart st r.1 r.2.1 r.2.2).2.2 with
    | none => exact ih _
    | some i =>
      refine List.Pairwise.cons ?_ (ih _)
      intro j hj
      have hj' : some j ∈ (sendSeq (sendRequestStart st r.1 r.2.1 r.2.2).1 rest).2 := by
        rcases List.mem_filterMap.mp hj with ⟨o, ho', hoj⟩
        cases o with
        | none => cases hoj
        | some k => cases hoj; exact ho'
      have h1 := sendSeq_ids_gt rest _ j hj'
      have h2 := sendRequestStart_id_eq st r.1 r.2.1 r.2.2 i ho
      omega

/-! ## C4: queries versus the initialize/initialized handshake -/

/-- The service state while the very first `startServer("typescript")` call
is suspended awaiting its `initialize` response: the subprocess spawned and
the server was registered, but the handshake has not completed. -/
def c4MidState : SvcState :=
  (startServerPhase1 initialService "typescript" 11 "/proj").1

/-- **C4 counterexample.** A query issued while the server is still
initializing is written to the pipe immediately: from the reachable
mid-handshake state (registered, not yet initialized) a second caller's
`goToDefinition` run writes its `didOpen` notification and its
`textDocument/definition` request with *no* `initialize` request and no
`initialized` notification anywhere in its own write trace — `startServer`
returned at once because the server was registered.  The query neither
waited for initialization nor failed with a "not ready" outcome, refuting
the claim. -/
theorem c4_counterexample :
    c4MidState.initialized = [] ∧
    ((goToDefinitionSend c4MidState "/proj/a.ts" "const x = 1" 10 5 11
        "/proj").2.1.filter isWrite)
      = [.write "typescript" (.notification "textDocument/didOpen"
            (didOpenParams "/proj/a.ts" "typescript" "const x = 1")),
         .write "typescript" (.request 2 "textDocument/definition"
            (positionParams "/proj/a.ts" 10 5))] :=
  ⟨rfl, rfl⟩

/-- **C4 (amended).** A query for a language with *no registered server*
does drive the full handshake before its own request: its write trace is
the `initialize` request, the `initialized` notification, the `didOpen`
notification, and only then the query request.  But a query issued while
the server is still initializing (registered, not yet initialized, as in
the counterexample) is written immediately, skipping the handshake wait,
rather than waiting or failing with a not-ready outcome. -/
theorem c4_fresh_start_handshake_precedes_query (st : SvcState)
    (filePath text language : String) (line character pid : Int)
    (root : String) (cmd : LSPCmd)
    (hfile : getLanguageFromFile filePath = some language)
    (hcmd : getLSPCommand language = some cmd)
    (hnosrv : language ∉ st.servers) (hnoinit : language ∉ st.initialized) :
    ((goToDefinitionSend st filePath text line character pid root).2.1.filter
        isWrite)
      = [.write language (.request (st.requestId + 1) "initialize"
            (initializeParams pid root)),
         .write language (.notification "initialized" (.jobj [])),
         .write language (.notification "textDocument/didOpen"
            (didOpenParams filePath language text)),
         .write language (.request (st.requestId + 2) "textDocument/definition"
            (positionParams filePath line character))] := by
  simp [goToDefinitionSend, ensureServerForFileRun, hfile, hnoinit,
    startServerRun, startServerPhase1, hnosrv, hcmd, sendRequestStart,
    handleMessage, startServerPhase2, sendNotification, openFileRun,
    isWrite, List.mem_cons, eraseNatKey]

/-- Witness for C4 (amended): the full fresh-start trace from the initial
state on a concrete typescript file. -/
theorem c4_fresh_start_handshake_precedes_query_witness :
    getLanguageFromFile "/proj/a.ts" = some "typescript" ∧
    "typescript" ∉ initialService.servers ∧
    ((goToDefinitionSend initialService "/proj/a.ts" "const x = 1" 10 5 11
        "/proj").2.1.filter isWrite)
      = [.write "typescript" (.request 1 "initialize" (initializeParams 11 "/proj")),
         .write "typescript" (.notification "initialized" (.jobj [])),
         .write "typescript" (.notification "textDocument/didOpen"
            (didOpenParams "/proj/a.ts" "typescript" "const x = 1")),
         .write "typescript" (.request 2 "textDocument/definition"
            (positionParams "/proj/a.ts" 10 5))] :=
  ⟨rfl, by decide,
   c4_fresh_start_handshake_precedes_query initialService "/proj/a.ts"
     "const x = 1" "typescript" 10 5 11 "/proj" _ rfl rfl (by decide) (by decide)⟩

/-! ## C7: document sessions -/

def isDidOpenWrite : Ev → Bool
  | .write _ (.notification m _) => m == "textDocument/didOpen"
  | _ => false

/-- Concrete state with the typescript server up and initialized. -/
def c7State : SvcState := ⟨["typescript"], 1, [], ["typescript"], ["typescript"]⟩

/-- **C7 counterexample.** Two successive façade queries touching the same
file each send their own `didOpen`: across this concrete two-query sequence
the notification is written twice, refuting "at most once per file across
any sequence of façade queries".  (`openFile` performs no cache lookup.) -/
theorem c7_counterexample :
    ((goToDefinitionSend c7State "/p/a.ts" "let y = 2" 1 1 9 "/p").2.1
      ++ (goToDefinitionSend
            (goToDefinitionSend c7State "/p/a.ts" "let y = 2" 1 1 9 "/p").1
            "/p/a.ts" "let y = 2" 1 1 9 "/p").2.1).countP isDidOpenWrite
      = 2 := rfl

/-- **C7 (amended).** `openFile` on an initialized server sends exactly one
`didOpen` notification — with the language id, version 1, and the file's
full text — on *every* call, and records nothing in the service state (the
state is returned unchanged), so each later query touching the file sends
it again; there is no cached session looked up by absolute path. -/
theorem c7_didopen_resent_every_call (st : SvcState)
    (filePath text language : String) (pid : Int) (root : String)
    (hfile : getLanguageFromFile filePath = some language)
    (hinit : language ∈ st.initialized) (hsrv : language ∈ st.servers) :
    openFileRun st filePath text pid root
      = (st, [.write language (.notification "textDocument/didOpen"
          (didOpenParams filePath language text))], true) := by
  simp [openFileRun, ensureServerForFileRun, hfile, hinit, sendNotification,
    hsrv]

/-- Witness for C7 (amended) on the concrete initialized state. -/
theorem c7_didopen_resent_every_call_witness :
    getLanguageFromFile "/p/a.ts" = some "typescript" ∧
    "typescript" ∈ c7State.initialized ∧
    openFileRun c7State "/p/a.ts" "let y = 2" 9 "/p"
      = (c7State, [.write "typescript" (.notification "textDocument/didOpen"
          (didOpenParams "/p/a.ts" "typescript" "let y = 2"))], true) :=
  ⟨rfl, by decide,
   c7_didopen_resent_every_call c7State "/p/a.ts" "let y = 2" "typescript"
     9 "/p" rfl (by decide) (by decide)⟩

/-! ## C10: shutdown abandons outstanding requests -/

theorem sendRequestStart_events (st : SvcState) (l m : String) (p : JVal) :
    ∀ e ∈ (sendRequestStart st l m p).2.1, isWrite e = true := by
  unfold sendRequestStart
  split <;> simp [isWrite]

theorem sendNotification_events (st : SvcState) (l m : String) (p : JVal) :
    ∀ e ∈ (sendNotification st l m p).2, isWrite e = true := by
  unfold sendNotification
  split <;> simp [isWrite]

theorem sendNotification_state (st : SvcState) (l m : String) (p : JVal) :
    (sendNotification st l m p).1 = st := by
  unfold sendNotification
  split <;> rfl

theorem shutdownLoop_events :
    ∀ (langs : List String) (acc : SvcState × List Ev),
      (∀ e ∈ acc.2, isWrite e = true) →
      ∀ e ∈ (shutdownLoop acc langs).2, isWrite e = true := by
  intro langs
  induction langs with
  | nil => intro acc hacc; exact hacc
  | cons language rest ih =>
    intro acc hacc
    apply ih
    intro e he
    simp only [List.mem_append] at he
    rcases he with (he | he) | he
    · exact hacc e he
    · exact sendRequestStart_events acc.1 language "shutdown" .jnull e he
    · exact sendNotification_events _ language "exit" .jnull e he

theorem shutdownLoop_requestId :
    ∀ (langs : List String) (acc : SvcState × List Ev),
      acc.1.requestId ≤ (shutdownLoop acc langs).1.requestId := by
  intro langs
  induction langs with
  | nil => intro acc; exact Nat.le_refl _
  | cons language rest ih =>
    intro acc
    refine Nat.le_trans ?_ (ih _)
    rw [sendNotification_state]
    exact sendRequestStart_requestId_le acc.1 language "shutdown" .jnull

theorem settlesId_eq_false_of_write (i : Nat) (e : Ev) (h : isWrite e = true) :
    settlesId i e = false := by
  cases e <;> simp_all [isWrite, settlesId]

/-- One service event preserves "request `i` is gone and can never be
reallocated" and settles nothing for `i`. -/
theorem act_no_settle (i : Nat) (st : SvcState) (a : Act)
    (hgone : i ∉ st.pending) (hle : i ≤ st.requestId) :
    (∀ e ∈ (act st a).2, settlesId i e = false) ∧
    i ∉ (act st a).1.pending ∧ i ≤ (act st a).1.requestId := by
  cases a with
  | deliver m =>
    cases hm : m.id with
    | none =>
      simp only [act, handleMessage, hm]
      exact ⟨by simp, hgone, hle⟩
    | some j =>
      simp only [act, handleMessage, hm]
      by_cases hj : j ∈ st.pending
      · have hji : j ≠ i := fun h => hgone (h ▸ hj)
        refine ⟨?_, ?_, by rw [if_pos hj]; exact hle⟩
        · intro e he
          simp only [if_pos hj, List.mem_singleton] at he
          subst he
          split <;> simp [settlesId, hji]
        · simp only [if_pos hj]
          intro hmem
          exact hgone ((List.mem_filter.mp hmem).1)
      · simp [if_neg hj, hgone, hle]
  | fire j =>
    simp only [act, timeoutFire]
    by_cases hj : j ∈ st.pending
    · have hji : j ≠ i := fun h => hgone (h ▸ hj)
      refine ⟨?_, ?_, by rw [if_pos hj]; exact hle⟩
      · intro e he
        simp only [if_pos hj, List.mem_singleton] at he
        subst he
        simp [settlesId, hji]
      · simp only [if_pos hj]
        intro hmem
        exact hgone ((List.mem_filter.mp hmem).1)
    · simp [if_neg hj, hgone, hle]
  | send l m p =>
    simp only [act, sendRequestStart]
    split
    · refine ⟨by simp [settlesId], ?_, by simp; omega⟩
      simp only [List.mem_cons]
      rintro (h | h)
      · omega
      · exact hgone h
    · exact ⟨by simp, hgone, hle⟩
  | notify l m p =>
    simp only [act, sendNotification]
    split
    · exact ⟨by simp [settlesId], hgone, hle⟩
    · exact ⟨by simp, hgone, hle⟩
  | procExit l =>
    simp only [act, exitHandler]
    exact ⟨by simp, hgone, hle⟩
  | shutdownAll =>
    simp only [act, shutdownRun]
    refine ⟨?_, by simp, ?_⟩
    · intro e he
      exact settlesId_eq_false_of_write i e
        (shutdownLoop_events st.servers (st, []) (by simp) e he)
    · exact Nat.le_trans hle (shutdownLoop_requestId st.servers (st, []))

theorem runActs_no_settle (i : Nat) :
    ∀ (acts : List Act) (st : SvcState), i ∉ st.pending → i ≤ st.requestId →
      ∀ e ∈ (runActs st acts).2, settlesId i e = false := by
  intro acts
  induction acts with
  | nil => intro st h1 h2 e he; simp [runActs] at he
  | cons a as ih =>
    intro st h1 h2 e he
    simp only [runActs, List.mem_append] at he
    obtain ⟨ha, hb, hc⟩ := act_no_settle i st a h1 h2
    rcases he with he | he
    · exact ha e he
    · exact ih (act st a).1 hb hc e he

/-- **C10.** If `shutdown()` runs while requests are outstanding, those
requests' promises are never settled: the shutdown's own event trace
contains only pipe writes (clearing `pendingRequests` settles nothing), the
pending table is left empty, and afterwards no sequence of service events —
late responses, timer firings (the timeout handler rejects only when the
entry is still present), new requests (which allocate strictly larger ids,
as `requestId` is never reset), further exits or shutdowns — ever resolves
or rejects the abandoned id, so a caller awaiting it waits forever.  The
hypothesis `hle` is the allocation invariant: every pending id was drawn
from the `requestId` counter. -/
theorem c10_shutdown_never_settles (st : SvcState) (i : Nat)
    (hp : i ∈ st.pending) (hle : ∀ j ∈ st.pending, j ≤ st.requestId) :
    (shutdownRun st).1.pending = [] ∧
    (∀ e ∈ (shutdownRun st).2, settlesId i e = false) ∧
    (∀ acts : List Act, ∀ e ∈ (runActs (shutdownRun st).1 acts).2,
      settlesId i e = false) := by
  have hi : i ≤ st.requestId := hle i hp
  refine ⟨rfl, ?_, ?_⟩
  · intro e he
    exact settlesId_eq_false_of_write i e
      (shutdownLoop_events st.servers (st, []) (by simp) e he)
  · intro acts e he
    refine runActs_no_settle i acts (shutdownRun st).1 (by simp [shutdownRun]) ?_ e he
    show i ≤ (shutdownLoop (st, []) st.servers).1.requestId
    exact Nat.le_trans hi (shutdownLoop_requestId st.servers (st, []))

def c10State : SvcState := ⟨["typescript"], 5, [2, 5], ["typescript"], []⟩

def c10Acts : List Act :=
  [.fire 2, .deliver ⟨some 2, false⟩, .send "typescript" "m" .jnull,
   .deliver ⟨some 2, true⟩]

/-- Witness for C10: at a concrete state with requests `2` and `5` pending,
after `shutdown()` a concrete sequence of late events (the old timer firing,
late responses for id `2`, a fresh request) produces no settlement of id
`2`. -/
theorem c10_shutdown_never_settles_witness :
    2 ∈ c10State.pending ∧
    (shutdownRun c10State).1.pending = [] ∧
    ((runActs (shutdownRun c10State).1 c10Acts).2.countP (settlesId 2)) = 0 :=
  ⟨by decide,
   (c10_shutdown_never_settles c10State 2 (by decide) (by decide)).1,
   List.countP_eq_zero.mpr (fun e he => by
     simpa using
       (c10_shutdown_never_settles c10State 2 (by decide) (by decide)).2.2
         c10Acts e he)⟩

/-! ## Positions, ranges and location formatting -/

/-- A protocol-native (0-based) position. -/
structure WPos where
  line : Int
  character : Int
deriving DecidableEq

/-- A protocol-native range; `rend` models the `end` field. -/
structure WRange where
  start : WPos
  rend : WPos
deriving DecidableEq

/-- A façade (1-based) position. -/
structure FPos where
  line : Int
  character : Int
deriving DecidableEq

structure FRange where
  start : FPos
  rend : FPos
deriving DecidableEq

/-- `{ line: p.line + 1, character: p.character + 1 }`. -/
def convertPos (p : WPos) : FPos := ⟨p.line + 1, p.character + 1⟩

def convertRange (r : WRange) : FRange := ⟨convertPos r.start, convertPos r.rend⟩

/-! ## C5: hover payload normalization (from `getHoverInfo`) -/

/-- `c => typeof c === 'string' ? c : c.value || ''` applied to each array
entry. -/
def elemJVal (c : JVal) : JVal :=
  match c with
  | .jstr s => .jstr s
  | other =>
    match other.getField "value" with
    | some v => if jsTruthy v then v else .jstr ""
    | none => .jstr ""

/-- The string `Array.prototype.join` renders for one element. -/
def joinPiece : JVal → String
  | .jstr s => s
  | .jnum n => toString n
  | .jbool b => if b then "true" else "false"
  | .jnull => ""
  | .jarr _ => ""
  | .jobj _ => "[object Object]"

/-- The shape dispatch of `getHoverInfo` on `result.contents`: a plain
string is taken as is; an array is mapped entry-wise and joined with
newlines; otherwise a truthy `value` property is taken (else the content
stays `''`). -/
def hoverContent (contents : JVal) : JVal :=
  match contents with
  | .jstr s => .jstr s
  | .jarr xs =>
    .jstr (String.intercalate "\n" (xs.map (fun c => joinPiece (elemJVal c))))
  | other =>
    match other.getField "value" with
    | some v => if jsTruthy v then v else .jstr ""
    | none => .jstr ""

/-- The raw `textDocument/hover` result: its `contents` value (`jnull` when
absent) and its optional `range`. -/
structure HoverRaw where
  contents : JVal
  range : Option WRange

/-- What `getHoverInfo` returns past the request: an error value, or a
success carrying `info` (`none` models `info: null`) and a converted
range. -/
inductive HoverReply where
  | err (message : String)
  | ok (info : Option JVal) (range : Option FRange)

/-- The response-processing tail of `getHoverInfo`: a `null` result yields
`{ info: null }`; otherwise the contents are flattened by shape and the
range (when present) converted to 1-based coordinates. -/
def getHoverReply (result : Option HoverRaw) : HoverReply :=
  match result with
  | none => .ok none none
  | some r =>
    .ok (some (if jsTruthy r.contents then hoverContent r.contents
               else .jstr ""))
        (r.range.map convertRange)

/-- An array entry carrying text `t`: either the plain string `t` or an
object whose `value` property is `t`. -/
def entryText (x : JVal) (t : String) : Prop :=
  x = .jstr t ∨ ∃ fields, x = .jobj fields ∧ fields.lookup "value" = some (.jstr t)

theorem elemJVal_entryText {x : JVal} {t : String} (h : entryText x t) :
    joinPiece (elemJVal x) = t := by
  rcases h with rfl | ⟨fields, rfl, hlook⟩
  · rfl
  · by_cases ht : t = ""
    · subst ht
      simp [elemJVal, JVal.getField, hlook, jsTruthy, joinPiece]
    · simp [elemJVal, JVal.getField, hlook, jsTruthy, ht, joinPiece]

/-- **C5.** The hover payload is normalized to one flat string for each of
the three protocol shapes — a plain string, an object carrying a text
`value`, and a list of either with entries joined by newlines — and a
`null` protocol result is a success carrying `info: null` ("no
information"), not an error. -/
theorem c5_hover_normalization :
    (getHoverReply none = .ok none none) ∧
    (∀ (s : String) (rng : Option WRange),
      getHoverReply (some ⟨.jstr s, rng⟩)
        = .ok (some (.jstr s)) (rng.map convertRange)) ∧
    (∀ (fields : List (String × JVal)) (s : String) (rng : Option WRange),
      fields.lookup "value" = some (.jstr s) →
      getHoverReply (some ⟨.jobj fields, rng⟩)
        = .ok (some (.jstr s)) (rng.map convertRange)) ∧
    (∀ (xs : List JVal) (ts : List String) (rng : Option WRange),
      List.Forall₂ entryText xs ts →
      getHoverReply (some ⟨.jarr xs, rng⟩)
        = .ok (some (.jstr (String.intercalate "\n" ts)))
            (rng.map convertRange)) := by
  refine ⟨rfl, ?_, ?_, ?_⟩
  · intro s rng
    by_cases hs : s = ""
    · subst hs
      simp [getHoverReply, jsTruthy, hoverContent]
    · simp [getHoverReply, jsTruthy, hoverContent, hs]
  · intro fields s rng hlook
    by_cases hs : s = ""
    · subst hs
      simp [getHoverReply, jsTruthy, hoverContent, JVal.getField, hlook]
    · simp [getHoverReply, jsTruthy, hoverContent, JVal.getField, hlook, hs]
  · intro xs ts rng hall
    have hmap : xs.map (fun c => joinPiece (elemJVal c)) = ts := by
      induction hall with
      | nil => rfl
      | cons h1 h2 ih => simp [ih, elemJVal_entryText h1]
    simp [getHoverReply, jsTruthy, hoverContent, hmap]

/-- Witness for C5 at the spec's own examples: an object-shaped payload
(`{contents: {value: "function foo(): void"}}`) and a two-entry list of a
string and an object. -/
theorem c5_hover_normalization_witness :
    ([("value", JVal.jstr "function foo(): void")].lookup "value"
      = some (.jstr "function foo(): void")) ∧
    getHoverReply (some ⟨.jobj [("value", .jstr "function foo(): void")], none⟩)
      = .ok (some (.jstr "function foo(): void")) none ∧
    getHoverReply (some ⟨.jarr [.jstr "line one",
        .jobj [("value", .jstr "line two")]], none⟩)
      = .ok (some (.jstr (String.intercalate "\n" ["line one", "line two"])))
          none :=
  ⟨rfl,
   c5_hover_normalization.2.2.1 [("value", .jstr "function foo(): void")]
     "function foo(): void" none rfl,
   c5_hover_normalization.2.2.2 [.jstr "line one",
       .jobj [("value", .jstr "line two")]] ["line one", "line two"] none
     (List.Forall₂.cons (Or.inl rfl)
       (List.Forall₂.cons (Or.inr ⟨_, rfl, rfl⟩) List.Forall₂.nil))⟩

/-! ## C6: coordinate conversion (from the query senders,
`formatLocationResult` and `getHoverInfo`) -/

/-- `s.replace('file://', '')` — JavaScript `replace` with a string pattern
replaces only the first occurrence. -/
def replaceFirst (pat sub s : List Char) : List Char :=
  match findSub pat s with
  | some i => s.take i ++ sub ++ s.drop (i + pat.length)
  | none => s

def stripFileScheme (u : String) : String :=
  String.mk (replaceFirst "file://".toList [] u.toList)

/-- A raw location from the server: `Location` (`uri`/`range`) or
`LocationLink` (`targetUri`/`targetRange`) fields. -/
structure WLoc where
  uri : Option String
  targetUri : Option String
  range : Option WRange
  targetRange : Option WRange

/-- A façade location entry. -/
structure FLoc where
  file : Option String
  line : Option Int
  character : Option Int
  endLine : Option Int
  endCharacter : Option Int
deriving DecidableEq

/-- The `locations.map(...)` body of `formatLocationResult`. -/
def formatLoc (loc : WLoc) : FLoc :=
  let uri : Option String :=
    match loc.uri with
    | some u => if u = "" then loc.targetUri else some u
    | none => loc.targetUri
  let range : Option WRange :=
    match loc.range with
    | some r => some r
    | none => loc.targetRange
  { file :=
      match uri with
      | some u => if u = "" then none else some (stripFileScheme u)
      | none => none,
    line :=
      match range with
      | some r => some (r.start.line + 1)
      | none => none,
    character :=
      match range with
      | some r => some (r.start.character + 1)
      | none => none,
    endLine :=
      match range with
      | some r => some (r.rend.line + 1)
      | none => none,
    endCharacter :=
      match range with
      | some r => some (r.rend.character + 1)
      | none => none }

/-- The protocol result of `textDocument/definition`: `null`, one location,
or a list. -/
inductive DefResult where
  | noResult
  | single (loc : WLoc)
  | many (locs : List WLoc)

def fileTruthy (l : FLoc) : Bool :=
  match l.file with
  | some s => s != ""
  | none => false

/-- `formatLocationResult`: normalize to a list, reshape each location to
1-based façade coordinates, and drop entries with no usable file. -/
def formatLocationResult (result : DefResult) : List FLoc :=
  match result with
  | .noResult => []
  | .single loc => ([loc].map formatLoc).filter fileTruthy
  | .many locs => (locs.map formatLoc).filter fileTruthy

/-- Concrete ready-server state for the C6 witness. -/
def c6State : SvcState := ⟨["typescript"], 0, [], ["typescript"], ["typescript"]⟩

/-- **C6.** Coordinate conversion round-trips at the façade boundary: every
query carries the external 1-based line and character minus one as the
0-based wire position (shown both on the parameter payloads and on the
request actually written by `goToDefinition`), and every wire position in a
response is surfaced with one added to line and character by
`formatLocationResult`; a wire range echoing the position the façade sent
surfaces as the original 1-based coordinates. -/
theorem c6_coordinate_round_trip :
    (∀ (filePath : String) (line character : Int),
      (positionParams filePath line character).getField "position"
        = some (.jobj [("line", .jnum (line - 1)),
            ("character", .jnum (character - 1))]) ∧
      (referenceParams filePath line character).getField "position"
        = some (.jobj [("line", .jnum (line - 1)),
            ("character", .jnum (character - 1))])) ∧
    (∀ (st : SvcState) (filePath text language : String)
        (line character pid : Int) (root : String),
      getLanguageFromFile filePath = some language →
      language ∈ st.initialized → language ∈ st.servers →
      (goToDefinitionSend st filePath text line character pid root).2.1
        = [.write language (.notification "textDocument/didOpen"
              (didOpenParams filePath language text)),
           .write language (.request (st.requestId + 1)
              "textDocument/definition"
              (positionParams filePath line character))]) ∧
    (∀ (loc : WLoc) (r : WRange), loc.range = some r →
      (formatLoc loc).line = some (r.start.line + 1) ∧
      (formatLoc loc).character = some (r.start.character + 1) ∧
      (formatLoc loc).endLine = some (r.rend.line + 1) ∧
      (formatLoc loc).endCharacter = some (r.rend.character + 1)) ∧
    (∀ (u : String) (r : WRange), u ≠ "" → stripFileScheme u ≠ "" →
      formatLocationResult (.single ⟨some u, none, some r, none⟩)
        = [⟨some (stripFileScheme u), some (r.start.line + 1),
            some (r.start.character + 1), some (r.rend.line + 1),
            some (r.rend.character + 1)⟩]) ∧
    (∀ (line character : Int) (loc : WLoc),
      loc.range
          = some ⟨⟨line - 1, character - 1⟩, ⟨line - 1, character - 1⟩⟩ →
      (formatLoc loc).line = some line ∧
      (formatLoc loc).character = some character) := by
  refine ⟨fun f l c => ⟨rfl, rfl⟩, ?_, ?_, ?_, ?_⟩
  · intro st filePath text language line character pid root hfile hinit hsrv
    simp [goToDefinitionSend, ensureServerForFileRun, hfile, hinit,
      openFileRun, sendNotification, hsrv, sendRequestStart]
  · intro loc r hr
    simp [formatLoc, hr]
  · intro u r hu hstrip
    simp [formatLocationResult, formatLoc, fileTruthy, hu, hstrip]
  · intro line character loc hloc
    constructor
    · simp [formatLoc, hloc]
    · simp [formatLoc, hloc]

/-- Witness for C6: a synthetic wire location with 0-based `{9,4}` surfaces
as 1-based `{10,5}` (end `{11,8}` as `{12,9}`), with its `file://` scheme
stripped; and the ready-server query trace on a concrete file. -/
theorem c6_coordinate_round_trip_witness :
    formatLocationResult (.single ⟨some "file:///a/b.ts", none,
        some ⟨⟨9, 4⟩, ⟨11, 8⟩⟩, none⟩)
      = [⟨some "/a/b.ts", some 10, some 5, some 12, some 9⟩] ∧
    (goToDefinitionSend c6State "/p/a.ts" "t" 10 5 1 "/p").2.1
      = [.write "typescript" (.notification "textDocument/didOpen"
            (didOpenParams "/p/a.ts" "typescript" "t")),
         .write "typescript" (.request 1 "textDocument/definition"
            (positionParams "/p/a.ts" 10 5))] := by
  constructor
  · have h := c6_coordinate_round_trip.2.2.2.1 "file:///a/b.ts"
      ⟨⟨9, 4⟩, ⟨11, 8⟩⟩ (by decide) (by decide)
    rw [show stripFileScheme "file:///a/b.ts" = "/a/b.ts" from by decide] at h
    simpa using h
  · have h := c6_coordinate_round_trip.2.1 c6State "/p/a.ts" "t" "typescript"
      10 5 1 "/p" (by decide) (by decide) (by decide)
    simpa using h

/-! ## C8: document symbol flattening (from `formatSymbols`) -/

/-- A node of the server's nested symbol tree: `range` or a
`location.range`, plus children. -/
inductive SymTree where
  | node (name : String) (kind : Nat) (range : Option WRange)
      (locationRange : Option WRange) (children : List SymTree)

/-- One flattened entry. -/
structure SymOut where
  name : String
  kind : String
  depth : Nat
  line : Option Int
  endLine : Option Int
deriving DecidableEq

/-- The `symbolKindMap` lookup table. -/
def symbolKindMap : List (Nat × String) :=
  [(1, "File"), (2, "Module"), (3, "Namespace"), (4, "Package"),
   (5, "Class"), (6, "Method"), (7, "Property"), (8, "Field"),
   (9, "Constructor"), (10, "Enum"), (11, "Interface"), (12, "Function"),
   (13, "Variable"), (14, "Constant"), (15, "String"), (16, "Number"),
   (17, "Boolean"), (18, "Array"), (19, "Object"), (20, "Key"),
   (21, "Null"), (22, "EnumMember"), (23, "Struct"), (24, "Event"),
   (25, "Operator"), (26, "TypeParameter")]

/-- `symbolKindMap[sym.kind] || 'Unknown'`. -/
def kindLabel (kind : Nat) : String :=
  (symbolKindMap.lookup kind).getD "Unknown"

/-- `sym.range || sym.location?.range`. -/
def jsOrRange (range locationRange : Option WRange) : Option WRange :=
  match range with
  | some r => some r
  | none => locationRange

/-- `range ? range.start.line + 1 : null`. -/
def lineOfRange (r : Option WRange) : Option Int :=
  match r with
  | some rr => some (rr.start.line + 1)
  | none => none

/-- `range ? range.end.line + 1 : null`. -/
def endLineOfRange (r : Option WRange) : Option Int :=
  match r with
  | some rr => some (rr.rend.line + 1)
  | none => none

/-- `formatSymbols(symbols, depth)`: push each node's entry, then (when it
has children) its recursively flattened children at `depth + 1`, then
continue with the siblings. -/
def formatSymbols : List SymTree → Nat → List SymOut
  | [], _ => []
  | .node name kind range locationRange children :: rest, depth =>
    { name := name, kind := kindLabel kind, depth := depth,
      line := lineOfRange (jsOrRange range locationRange),
      endLine := endLineOfRange (jsOrRange range locationRange) }
    :: ((if children.length > 0 then formatSymbols children (depth + 1) else [])
        ++ formatSymbols rest depth)

/-- The flattened pre-order walk with nesting depths, as the specification
words it: each node's name and kind code annotated with its depth. -/
def preorderSpec : List SymTree → Nat → List (String × Nat × Nat)
  | [], _ => []
  | .node name kind _ _ children :: rest, depth =>
    (name, kind, depth)
      :: (preorderSpec children (depth + 1) ++ preorderSpec rest depth)

theorem lookup_none_of_big (k : Nat) (l : List (Nat × String))
    (h : ∀ p ∈ l, p.1 < k) : l.lookup k = none := by
  induction l with
  | nil => rfl
  | cons p rest ih =>
    have hp := h p (List.mem_cons_self p rest)
    have hk : (k == p.1) = false := by
      simp only [beq_eq_false_iff_ne, ne_eq]
      omega
    simp only [List.lookup, hk]
    exact ih (fun q hq => h q (List.mem_cons_of_mem p hq))

theorem formatSymbols_nil (depth : Nat) : formatSymbols [] depth = [] := by
  conv_lhs => unfold formatSymbols

theorem formatSymbols_cons (name : String) (kind : Nat)
    (range locationRange : Option WRange) (children rest : List SymTree)
    (depth : Nat) :
    formatSymbols (.node name kind range locationRange children :: rest) depth
      = { name := name, kind := kindLabel kind, depth := depth,
          line := lineOfRange (jsOrRange range locationRange),
          endLine := endLineOfRange (jsOrRange range locationRange) }
        :: ((if children.length > 0 then formatSymbols children (depth + 1)
             else []) ++ formatSymbols rest depth) := by
  conv_lhs => unfold formatSymbols

theorem preorderSpec_nil (depth : Nat) : preorderSpec [] depth = [] := by
  conv_lhs => unfold preorderSpec

theorem preorderSpec_cons (name : String) (kind : Nat)
    (range locationRange : Option WRange) (children rest : List SymTree)
    (depth : Nat) :
    preorderSpec (.node name kind range locationRange children :: rest) depth
      = (name, kind, depth)
        :: (preorderSpec children (depth + 1) ++ preorderSpec rest depth) := by
  conv_lhs => unfold preorderSpec

/-- The walker agrees with the pre-order specification entry for entry:
same names, labels of the node kinds, and nesting depths. -/
theorem formatSymbols_eq_preorder (syms : List SymTree) (depth : Nat) :
    (formatSymbols syms depth).map (fun o => (o.name, o.kind, o.depth))
      = (preorderSpec syms depth).map (fun t => (t.1, kindLabel t.2.1, t.2.2)) := by
  match syms with
  | [] => simp [formatSymbols_nil, preorderSpec_nil]
  | .node name kind range locationRange children :: rest =>
    have ih1 := formatSymbols_eq_preorder children (depth + 1)
    have ih2 := formatSymbols_eq_preorder rest depth
    by_cases hc : children.length > 0
    · simp [formatSymbols_cons, preorderSpec_cons, hc, ih1, ih2]
    · have hchildren : children = [] := List.length_eq_zero.mp (by omega)
      subst hchildren
      simp [formatSymbols_cons, preorderSpec_cons, formatSymbols_nil,
        preorderSpec_nil, ih2]
termination_by sizeOf syms

/-- **C8.** `formatSymbols` produces exactly the flattened pre-order walk
of the nested symbol tree: entry for entry the names, depths (equal to
nesting level, 0 at top level) and kind labels agree with the pre-order
specification; kind codes 1–26 map to their fixed labels (e.g. 12 to
"Function" and 13 to "Variable", never "Unknown"), and any code outside
1–26 maps to the label "Unknown" rather than the entry being dropped. -/
theorem c8_symbols_flattened :
    (∀ (syms : List SymTree) (depth : Nat),
      (formatSymbols syms depth).map (fun o => (o.name, o.kind, o.depth))
        = (preorderSpec syms depth).map
            (fun t => (t.1, kindLabel t.2.1, t.2.2))) ∧
    kindLabel 12 = "Function" ∧
    kindLabel 13 = "Variable" ∧
    (∀ k, k < 27 → 1 ≤ k → kindLabel k ≠ "Unknown") ∧
    (∀ k, k = 0 ∨ 27 ≤ k → kindLabel k = "Unknown") := by
  refine ⟨formatSymbols_eq_preorder, rfl, rfl, by decide, ?_⟩
  intro k hk
  rcases hk with rfl | hk
  · rfl
  · have hbig : ∀ p ∈ symbolKindMap, p.1 < k := by
      have hle : ∀ p ∈ symbolKindMap, p.1 ≤ 26 := by decide
      intro p hp
      have := hle p hp
      omega
    simp [kindLabel, lookup_none_of_big k symbolKindMap hbig]

/-- The specification's end-to-end example: a top-level Function (kind 12)
containing a nested Variable (kind 13). -/
def c8Tree : List SymTree :=
  [.node "foo" 12 (some ⟨⟨0, 0⟩, ⟨4, 0⟩⟩) none
     [.node "x" 13 (some ⟨⟨1, 2⟩, ⟨1, 10⟩⟩) none []]]

/-- Witness for C8: the two-entry flattened list with depths 0 and 1 and
labels "Function"/"Variable", plus an out-of-range code mapping to
"Unknown". -/
theorem c8_symbols_flattened_witness :
    (formatSymbols c8Tree 0).map (fun o => (o.name, o.kind, o.depth))
      = [("foo", "Function", 0), ("x", "Variable", 1)] ∧
    kindLabel 99 = "Unknown" :=
  ⟨by
    rw [c8_symbols_flattened.1 c8Tree 0]
    simp [c8Tree, preorderSpec_cons, preorderSpec_nil, kindLabel,
      symbolKindMap]
    decide,
   c8_symbols_flattened.2.2.2.2 99 (Or.inr (by decide))⟩

end LSP
